import Mathlib

set_option maxRecDepth 8000

/-!
Shallow embedding of the experiment core of the `ab-exp` repository
(`src/lib/domain/experiment/models/experiment.rs`,
`src/lib/domain/experiment/service.rs`, `src/lib/outbound/sqlite.rs`).

Modelling conventions:
* Rust `f64` arithmetic on distribution weights and hash scores is modelled
  by exact rational arithmetic (`ℚ`); decimal literals such as `0.2` and
  `33.3` denote the exact rationals `1/5` and `333/10`.
* machine integers are `ℕ` with explicit `% 2 ^ w` where overflow matters;
* Rust code that can fail or panic is modelled with `Option` / `Except`
  (`last().unwrap()` on an empty vector becomes `none`, an `f64` division
  whose result is not a finite number — `NaN` on `0.0 / 0.0` — becomes
  `none`);
* byte strings (`&str` / `as_bytes`) are `List ℕ` of values `< 256`;
  UTC timestamps (`DateTime<Utc>`) are `ℤ`.
-/

namespace AbExp

/-! SHA-256 over byte lists — the `sha2` crate computation performed by
`ExperimentVariants::assign_variant` (`Sha256::new`, `update`, `finalize`).
Words are naturals kept below `2 ^ 32` by `w32`. -/

/-- Truncation of a natural number to a 32-bit word. -/
def w32 (x : ℕ) : ℕ := x % 4294967296

/-- Right rotation of a 32-bit word by `n` bits. -/
def rotr (n x : ℕ) : ℕ := ((x >>> n) ||| (x <<< (32 - n))) % 4294967296

/-- Compression function value `Σ₀`. -/
def bigSigma0 (x : ℕ) : ℕ := rotr 2 x ^^^ rotr 13 x ^^^ rotr 22 x

/-- Compression function value `Σ₁`. -/
def bigSigma1 (x : ℕ) : ℕ := rotr 6 x ^^^ rotr 11 x ^^^ rotr 25 x

/-- Message schedule value `σ₀`. -/
def smallSigma0 (x : ℕ) : ℕ := rotr 7 x ^^^ rotr 18 x ^^^ (x >>> 3)

/-- Message schedule value `σ₁`. -/
def smallSigma1 (x : ℕ) : ℕ := rotr 17 x ^^^ rotr 19 x ^^^ (x >>> 10)

/-- Choice function of the SHA-256 round. -/
def ch (x y z : ℕ) : ℕ := (x &&& y) ^^^ ((x ^^^ 4294967295) &&& z)

/-- Majority function of the SHA-256 round. -/
def maj (x y z : ℕ) : ℕ := (x &&& y) ^^^ (x &&& z) ^^^ (y &&& z)

/-- Round constants of SHA-256 (FIPS 180-4). -/
def sha256K : List ℕ :=
  [
   1116352408, 1899447441, 3049323471, 3921009573, 961987163,
   1508970993, 2453635748, 2870763221, 3624381080, 310598401,
   607225278, 1426881987, 1925078388, 2162078206, 2614888103,
   3248222580, 3835390401, 4022224774, 264347078, 604807628,
   770255983, 1249150122, 1555081692, 1996064986, 2554220882,
   2821834349, 2952996808, 3210313671, 3336571891, 3584528711,
   113926993, 338241895, 666307205, 773529912, 1294757372,
   1396182291, 1695183700, 1986661051, 2177026350, 2456956037,
   2730485921, 2820302411, 3259730800, 3345764771, 3516065817,
   3600352804, 4094571909, 275423344, 430227734, 506948616,
   659060556, 883997877, 958139571, 1322822218, 1537002063,
   1747873779, 1955562222, 2024104815, 2227730452, 2361852424,
   2428436474, 2756734187, 3204031479, 3329325298]

/-- Initial hash state of SHA-256. -/
def sha256H0 : List ℕ :=
  [
   1779033703, 3144134277, 1013904242, 2773480762,
   1359893119, 2600822924, 528734635, 1541459225]

/-- Big-endian 64-bit length encoding appended by the padding step. -/
def be64 (n : ℕ) : List ℕ :=
  [n / 2 ^ 56 % 256, n / 2 ^ 48 % 256, n / 2 ^ 40 % 256, n / 2 ^ 32 % 256,
   n / 2 ^ 24 % 256, n / 2 ^ 16 % 256, n / 2 ^ 8 % 256, n % 256]

/-- Padding of a byte message to a multiple of 64 bytes: `0x80`, zeros,
then the bit length as a big-endian 64-bit value. -/
def padMessage (msg : List ℕ) : List ℕ :=
  let len := msg.length
  let zeros := (119 - len % 64) % 64
  msg ++ [128] ++ List.replicate zeros 0 ++ be64 (len * 8)

/-- Splitting a padded message into 64-byte blocks; the first argument is
fuel bounding the recursion by the list length. -/
def toBlocks : ℕ → List ℕ → List (List ℕ)
  | 0, _ => []
  | _ + 1, [] => []
  | n + 1, l => l.take 64 :: toBlocks n (l.drop 64)

/-- Grouping of a 64-byte block into 16 big-endian 32-bit words. -/
def toWords : List ℕ → List ℕ
  | b0 :: b1 :: b2 :: b3 :: rest =>
      (((b0 * 256 + b1) * 256 + b2) * 256 + b3) :: toWords rest
  | _ => []

/-- One extension step of the message schedule. -/
def scheduleStep (w : List ℕ) : List ℕ :=
  w ++ [w32 (smallSigma1 (w.getD (w.length - 2) 0) + w.getD (w.length - 7) 0 +
        smallSigma0 (w.getD (w.length - 15) 0) + w.getD (w.length - 16) 0)]

/-- Extension of the 16 message words to the 64 schedule words. -/
def schedule (w16 : List ℕ) : List ℕ :=
  (List.range 48).foldl (fun w _ => scheduleStep w) w16

/-- One SHA-256 compression round on the 8-word state. -/
def compressRound (s : ℕ × ℕ × ℕ × ℕ × ℕ × ℕ × ℕ × ℕ) (kw : ℕ × ℕ) :
    ℕ × ℕ × ℕ × ℕ × ℕ × ℕ × ℕ × ℕ :=
  match s, kw with
  | (a, b, c, d, e, f, g, h), (k, w) =>
    let t1 := w32 (h + bigSigma1 e + ch e f g + k + w)
    let t2 := w32 (bigSigma0 a + maj a b c)
    (w32 (t1 + t2), a, b, c, w32 (d + t1), e, f, g)

/-- Processing of one 64-byte block into the running 8-word hash state. -/
def processBlock (hs : List ℕ) (block : List ℕ) : List ℕ :=
  let ws := schedule (toWords block)
  let h0 := hs.getD 0 0
  let h1 := hs.getD 1 0
  let h2 := hs.getD 2 0
  let h3 := hs.getD 3 0
  let h4 := hs.getD 4 0
  let h5 := hs.getD 5 0
  let h6 := hs.getD 6 0
  let h7 := hs.getD 7 0
  match (sha256K.zip ws).foldl compressRound (h0, h1, h2, h3, h4, h5, h6, h7) with
  | (a, b, c, d, e, f, g, h) =>
    [w32 (h0 + a), w32 (h1 + b), w32 (h2 + c), w32 (h3 + d),
     w32 (h4 + e), w32 (h5 + f), w32 (h6 + g), w32 (h7 + h)]

/-- Big-endian bytes of a 32-bit word. -/
def wordBytes (w : ℕ) : List ℕ :=
  [w / 2 ^ 24 % 256, w / 2 ^ 16 % 256, w / 2 ^ 8 % 256, w % 256]

/-- SHA-256 digest (32 bytes) of a byte message. -/
def sha256 (msg : List ℕ) : List ℕ :=
  let padded := padMessage msg
  ((toBlocks padded.length padded).foldl processBlock sha256H0).flatMap wordBytes

/-! Domain model (`src/lib/domain/experiment/models/experiment.rs`).
`VariantData` and `ExperimentName` are newtypes over strings; their smart
constructors are not needed by the claims, so variants carry `String`
payloads directly.  `VariantDistribution(f64)` is modelled as `ℚ`. -/

/-- One experiment arm: `Variant { distribution: VariantDistribution, data: VariantData }`. -/
structure Variant where
  distribution : ℚ
  data : String
deriving DecidableEq

/-- Newtype `ExperimentVariants(Vec<Variant>)`; validity of the distribution
sum is established by the smart constructor `ExperimentVariants.new`, not
carried by the type (as in the Rust source). -/
structure ExperimentVariants where
  variants : List Variant
deriving DecidableEq

/-- Error `DistributionSumError` of `ExperimentVariants::new`. -/
inductive DistributionSumError where
  | mk : DistributionSumError
deriving DecidableEq

/-- Constant `ExperimentVariants::EPSILON = 0.2`: allowed deviation of the
distribution sum from 100 (in percentage points, exact rational `1/5`). -/
def EPSILON : ℚ := 0.2

/-- Translation of `ExperimentVariants::validate_distribution`: error if the
list is empty or if the sum of the distributions deviates from 100 by more
than `EPSILON` in absolute value. -/
def validateDistribution (distributions : List ℚ) :
    Except DistributionSumError Unit :=
  if distributions.isEmpty then .error .mk
  else if |distributions.sum - 100| > EPSILON then .error .mk
  else .ok ()

/-- Translation of `ExperimentVariants::new`: validate the distribution sum,
then wrap the list. -/
def ExperimentVariants.new (variants : List Variant) :
    Except DistributionSumError ExperimentVariants :=
  match validateDistribution (variants.map (·.distribution)) with
  | .error e => .error e
  | .ok _ => .ok ⟨variants⟩

/-- Constant `u64::MAX`. -/
def u64MAX : ℕ := 2 ^ 64 - 1

/-- Translation of `u64::from_be_bytes` applied to `hash_result[0..8]`: the
first 8 digest bytes read as a big-endian 64-bit integer. -/
def fromBeBytes (bytes : List ℕ) : ℕ :=
  (bytes.take 8).foldl (fun acc b => acc * 256 + b) 0

/-- Translation of `(hash_value as f64 / u64::MAX as f64) * 100.0`, with the
`f64` arithmetic idealised to exact rational arithmetic. -/
def normalizedScore (hashValue : ℕ) : ℚ :=
  ((hashValue : ℚ) / (u64MAX : ℚ)) * 100

/-- Translation of the accumulation loop of `assign_variant`
(`cumulative += variant.distribution(); if normalized < cumulative ...`);
returns `none` when the loop falls through without a match. -/
def assignWalk (normalized : ℚ) : List Variant → ℚ → Option String
  | [], _ => none
  | v :: rest, cumulative =>
    let c := cumulative + v.distribution
    if normalized < c then some v.data else assignWalk normalized rest c

/-- Translation of `ExperimentVariants::assign_variant`.  The trailing
`self.0.last().unwrap()` (a panic on an empty vector) is modelled with
`getLast?`, so the whole function returns `Option String`. -/
def ExperimentVariants.assign_variant (ev : ExperimentVariants)
    (hashInput : List ℕ) : Option String :=
  let hashValue := fromBeBytes (sha256 hashInput)
  let normalized := normalizedScore hashValue
  match assignWalk normalized ev.variants 0 with
  | some d => some d
  | none => (ev.variants.getLast?).map (·.data)

/-- Modelled from the spec: the `Device` record of §3 (`id`, `created_at`).
The checked-in `domain/device/models/device.rs` lacks the `created_at` field
that `service.rs` and `sqlite.rs` construct and read (`Device::new(id, now)`,
`dev.created_at()`), so the field is taken from the spec's data model.  The
`id` is the byte string of the rendered device id
(`format!("{}", id.into_inner())`). -/
structure Device where
  id : List ℕ
  created_at : ℤ
deriving DecidableEq

/-- Entity `Experiment` (id, name, variants, created_at, finished_at). -/
structure Experiment where
  id : String
  name : String
  variants : ExperimentVariants
  created_at : ℤ
  finished_at : Option ℤ
deriving DecidableEq

/-- Entity `DeviceExperiment` (experiment id, name, assigned data); the
`data` field is `Option String` because `assign_variant` is modelled as
fallible. -/
structure DeviceExperiment where
  id : String
  name : String
  data : Option String
deriving DecidableEq

/-- Entity `StatisticsVariant` (data, total_devices, percentage_devices);
the percentage is `Option ℚ` — `none` models an `f64` division whose result
is not a finite number (`NaN` for `0.0 / 0.0`). -/
structure StatisticsVariant where
  data : String
  total_devices : ℕ
  percentage_devices : Option ℚ
deriving DecidableEq

/-- Entity `StaticticsExperiment` (sic — the source's spelling). -/
structure StaticticsExperiment where
  id : String
  name : String
  total_devices : ℕ
  variants : List StatisticsVariant
deriving DecidableEq

/-! Statistics aggregation (`Service::get_statistics`,
`src/lib/domain/experiment/service.rs` lines 45–98). -/

/-- Translation of the participant filter of `get_statistics`:
`devices.iter().filter(|dev| exp.created_at().cmp(dev.created_at()).is_ge())`,
i.e. the devices whose `created_at` is at or before the experiment's. -/
def participants (exp : Experiment) (devices : List Device) : List Device :=
  devices.filter fun dev => decide (exp.created_at ≥ dev.created_at)

/-- Translation of the `variants_data` computation of `get_statistics`: the
assigned variant data of every participant, via `assign_variant` on the
rendered device id. -/
def assignedVariantsData (exp : Experiment) (parts : List Device) :
    List (Option String) :=
  parts.map fun p => exp.variants.assign_variant p.id

/-- Division of two `f64` values, idealised over `ℚ`: `none` models a result
that is not a finite number (division by zero — `NaN` or `±inf` in Rust). -/
def fdiv (a b : ℚ) : Option ℚ := if b = 0 then none else some (a / b)

/-- Translation of the per-experiment closure body of `get_statistics`
(lines 53–93 of `service.rs`): participants, `total_devices`,
`variants_data`, and one `StatisticsVariant` per configured variant with
the count of matching assignments and the percentage
`(assigned_total_devices as f64 / total_devices as f64) * 100.0`. -/
def statisticsFor (devices : List Device) (exp : Experiment) :
    StaticticsExperiment :=
  let parts := participants exp devices
  let total_devices := parts.length
  let variants_data := assignedVariantsData exp parts
  let statistics_variants := exp.variants.variants.map fun variant =>
    let assigned_total_devices :=
      (variants_data.filter fun v => decide (v = some variant.data)).length
    let percentage_devices :=
      (fdiv (assigned_total_devices : ℚ) (total_devices : ℚ)).map (· * 100)
    StatisticsVariant.mk variant.data assigned_total_devices percentage_devices
  StaticticsExperiment.mk exp.id exp.name total_devices statistics_variants

/-- Translation of `Service::get_statistics`: one `StaticticsExperiment`
per experiment, in order. -/
def getStatistics (experiments : List Experiment) (devices : List Device) :
    List StaticticsExperiment :=
  experiments.map (statisticsFor devices)

/-! Live assignment (`Sqlite::get_all_device_participating_experiments`,
`src/lib/outbound/sqlite.rs` lines 264–306), known-device path: the
experiment filter and the `DeviceExperiment` construction of lines 291–303.
(The new-device path returns an empty list before reaching this code.) -/

/-- Translation of the filter and map of lines 291–303 of `sqlite.rs`:
experiments with `exp.created_at().cmp(device.created_at()).is_ge()` —
created at or after the device — and `finished_at` unset, each mapped to a
`DeviceExperiment` via `assign_variant` on the rendered device id. -/
def deviceParticipatingExperiments (device : Device)
    (experiments : List Experiment) : List DeviceExperiment :=
  (experiments.filter fun exp =>
      decide (exp.created_at ≥ device.created_at) &&
      decide (exp.finished_at = none)).map
    fun exp => ⟨exp.id, exp.name, exp.variants.assign_variant device.id⟩

/-! Finishing an experiment (`Sqlite::finish_experiment`,
`src/lib/outbound/sqlite.rs` lines 333–347). -/

/-- Error type `FinishExperimentError` (the `Unknown` I/O variant is not
reachable in the pure model). -/
inductive FinishExperimentError where
  | NotFound (id : String) : FinishExperimentError
  | Finished (id : String) : FinishExperimentError
deriving DecidableEq

/-- One row of the `experiments` table as read and written by
`finish_experiment` (the variants live in a separate table). -/
structure ExperimentRow where
  id : String
  name : String
  created_at : ℤ
  finished_at : Option ℤ
deriving DecidableEq

/-- Translation of `Sqlite::finish_experiment`: a single unconditional
`UPDATE experiments SET finished_at = $1 WHERE id = $2` followed by
`Ok(id)`.  The result pairs the updated table with the returned value; no
row lookup and no `finished_at` check precede the update. -/
def finishExperiment (db : List ExperimentRow) (id : String) (now : ℤ) :
    List ExperimentRow × Except FinishExperimentError String :=
  (db.map fun row =>
      if row.id = id then { row with finished_at := some now } else row,
   .ok id)

/-! Definitions written from the spec's words, for the refinement claim on
`assign_variant` (§4.1 steps 4–5 of the spec). -/

/-- Cumulative distribution sums: each variant paired with the sum of the
distributions up to and including it, starting from `c`. -/
def cumSums (c : ℚ) : List Variant → List (Variant × ℚ)
  | [] => []
  | v :: rest => (v, c + v.distribution) :: cumSums (c + v.distribution) rest

/-- Written from the spec's words: walk the variants in insertion order and
return the data of the first variant whose cumulative sum strictly exceeds
the score (`score < cumulative`); fall back to the last variant's data when
no variant satisfies the condition. -/
def specAssignVariant (vs : List Variant) (score : ℚ) : Option String :=
  match (cumSums 0 vs).find? (fun p => decide (score < p.2)) with
  | some p => some p.1.data
  | none => (vs.getLast?).map (·.data)

/-- Normalized score of a hash input: the composition of SHA-256, the
big-endian `u64` read, and the normalisation, as in `assign_variant`. -/
def inputScore (hashInput : List ℕ) : ℚ :=
  normalizedScore (fromBeBytes (sha256 hashInput))

/-! Supporting lemmas. -/

/-- The accumulation loop returns the data of the first variant whose
cumulative sum strictly exceeds the score, and `none` when there is none. -/
theorem assignWalk_eq_find (sc : ℚ) :
    ∀ (vs : List Variant) (c : ℚ),
      assignWalk sc vs c =
        ((cumSums c vs).find? (fun p => decide (sc < p.2))).map (fun p => p.1.data)
  | [], _ => rfl
  | v :: rest, c => by
    by_cases h : sc < c + v.distribution
    · simp [assignWalk, cumSums, List.find?_cons_of_pos, h]
    · simp only [assignWalk, cumSums]
      rw [List.find?_cons_of_neg _ (by simpa using h), if_neg h,
        assignWalk_eq_find sc rest (c + v.distribution)]

/-- A successful accumulation loop returns the data of one of the walked
variants. -/
theorem assignWalk_mem (sc : ℚ) :
    ∀ (vs : List Variant) (c : ℚ) (d : String),
      assignWalk sc vs c = some d → ∃ v ∈ vs, d = v.data
  | [], _, _, h => by simp [assignWalk] at h
  | v :: rest, c, d, h => by
    by_cases hc : sc < c + v.distribution
    · simp [assignWalk, hc] at h
      exact ⟨v, List.mem_cons_self _ _, h.symm⟩
    · simp only [assignWalk, if_neg hc] at h
      obtain ⟨w, hw, hd⟩ := assignWalk_mem sc rest (c + v.distribution) d h
      exact ⟨w, List.mem_cons_of_mem _ hw, hd⟩

/-- The bytes of a 32-bit word are below 256. -/
theorem wordBytes_lt (w : ℕ) : ∀ b ∈ wordBytes w, b < 256 := by
  intro b hb
  simp only [wordBytes, List.mem_cons, List.not_mem_nil, or_false] at hb
  rcases hb with h | h | h | h <;> subst h <;> exact Nat.mod_lt _ (by norm_num)

/-- Every byte of a SHA-256 digest is below 256. -/
theorem sha256_bytes_lt (msg : List ℕ) : ∀ b ∈ sha256 msg, b < 256 := by
  intro b hb
  simp only [sha256, List.mem_flatMap] at hb
  obtain ⟨w, _, hw⟩ := hb
  exact wordBytes_lt w b hw

/-- Big-endian accumulation of bytes below 256 is bounded. -/
theorem foldlBE_lt :
    ∀ (l : List ℕ) (a : ℕ), (∀ b ∈ l, b < 256) →
      l.foldl (fun acc b => acc * 256 + b) a < (a + 1) * 256 ^ l.length
  | [], a, _ => by simp
  | b :: l, a, h => by
    have hb : b < 256 := h b (List.mem_cons_self _ _)
    have ih := foldlBE_lt l (a * 256 + b)
      (fun x hx => h x (List.mem_cons_of_mem _ hx))
    calc List.foldl (fun acc b => acc * 256 + b) (a * 256 + b) l
        < (a * 256 + b + 1) * 256 ^ l.length := ih
      _ ≤ ((a + 1) * 256) * 256 ^ l.length := by
          have : a * 256 + b + 1 ≤ (a + 1) * 256 := by nlinarith
          exact Nat.mul_le_mul_right _ this
      _ = (a + 1) * 256 ^ (b :: l).length := by
          rw [List.length_cons, pow_succ]; ring

/-- The big-endian `u64` read of a digest never exceeds `u64::MAX`. -/
theorem fromBeBytes_le (bytes : List ℕ) (h : ∀ b ∈ bytes, b < 256) :
    fromBeBytes bytes ≤ u64MAX := by
  have h8 : (bytes.take 8).length ≤ 8 := by
    simp [List.length_take]
  have hlt := foldlBE_lt (bytes.take 8) 0
    (fun b hb => h b (List.take_subset _ _ hb))
  have hpow : (256 : ℕ) ^ (bytes.take 8).length ≤ 256 ^ 8 :=
    Nat.pow_le_pow_right (by norm_num) h8
  have h64 : (256 : ℕ) ^ 8 = 2 ^ 64 := by norm_num
  have : fromBeBytes bytes < 2 ^ 64 := by
    unfold fromBeBytes
    calc (bytes.take 8).foldl (fun acc b => acc * 256 + b) 0
        < (0 + 1) * 256 ^ (bytes.take 8).length := hlt
      _ ≤ 2 ^ 64 := by rw [← h64]; simpa using hpow
  unfold u64MAX
  omega

/-- The normalized score is nonnegative. -/
theorem normalizedScore_nonneg (h : ℕ) : 0 ≤ normalizedScore h := by
  unfold normalizedScore
  positivity

/-- The normalized score of a hash value at most `u64::MAX` is at most 100. -/
theorem normalizedScore_le (h : ℕ) (hle : h ≤ u64MAX) :
    normalizedScore h ≤ 100 := by
  unfold normalizedScore
  have hM : (0 : ℚ) < (u64MAX : ℚ) := by norm_num [u64MAX]
  have hdiv : ((h : ℚ) / (u64MAX : ℚ)) ≤ 1 := by
    rw [div_le_one hM]
    exact_mod_cast hle
  nlinarith

/-- The source's `assign_variant` agrees with the first-match-else-last
reading of the spec, at the score of the hash input. -/
theorem assign_variant_eq_spec (ev : ExperimentVariants) (input : List ℕ) :
    ev.assign_variant input = specAssignVariant ev.variants (inputScore input) := by
  simp only [ExperimentVariants.assign_variant, specAssignVariant, inputScore]
  rw [assignWalk_eq_find]
  cases hf : (cumSums 0 ev.variants).find?
      (fun p => decide (normalizedScore (fromBeBytes (sha256 input)) < p.2)) <;>
    simp [hf]

/-- With a nonempty variant list, `assign_variant` returns the data of one
of the variants. -/
theorem assign_variant_mem (ev : ExperimentVariants) (input : List ℕ)
    (hne : ev.variants ≠ []) :
    ∃ v ∈ ev.variants, ev.assign_variant input = some v.data := by
  cases hw : assignWalk (normalizedScore (fromBeBytes (sha256 input)))
      ev.variants 0 with
  | some d =>
      obtain ⟨v, hv, hd⟩ := assignWalk_mem _ _ _ _ hw
      refine ⟨v, hv, ?_⟩
      simp [ExperimentVariants.assign_variant, hw, hd]
  | none =>
      refine ⟨ev.variants.getLast hne, List.getLast_mem hne, ?_⟩
      simp [ExperimentVariants.assign_variant, hw,
        List.getLast?_eq_getLast _ hne]

/-- A successful `ExperimentVariants.new` wraps the given nonempty list. -/
theorem new_ok_variants (vs : List Variant) (ev : ExperimentVariants)
    (h : ExperimentVariants.new vs = .ok ev) : ev.variants = vs ∧ vs ≠ [] := by
  constructor
  · unfold ExperimentVariants.new at h
    cases hv : validateDistribution (vs.map (·.distribution)) <;> rw [hv] at h
    · simp at h
    · simp at h
      rw [← h]
  · intro hnil
    subst hnil
    simp [ExperimentVariants.new, validateDistribution] at h

/-! Claim theorems. -/

/-- Claim C1, counterexample: the claim says the eligible participant set
of statistics aggregation is the devices with `created_at` at or after the
experiment's `created_at`.  For the experiment created at time 0 and a
device created at time 1 the device satisfies that condition, yet
`get_statistics` excludes it (the source filter keeps devices with
`exp.created_at >= dev.created_at`), so the eligible set is empty and
`total_devices` is 0. -/
theorem c1_eligibility_direction_counterexample :
    ((⟨[97], 1⟩ : Device).created_at ≥
        (⟨"e1", "checkout", ⟨[⟨100, "A"⟩]⟩, 0, none⟩ : Experiment).created_at)
      ∧ participants ⟨"e1", "checkout", ⟨[⟨100, "A"⟩]⟩, 0, none⟩ [⟨[97], 1⟩] = []
      ∧ (statisticsFor [⟨[97], 1⟩]
          ⟨"e1", "checkout", ⟨[⟨100, "A"⟩]⟩, 0, none⟩).total_devices = 0 :=
  ⟨by norm_num, by with_unfolding_all decide, by with_unfolding_all decide⟩

/-- Claim C1, amended: in statistics aggregation the eligible participant
set of an experiment is exactly the devices whose `created_at` is at or
BEFORE the experiment's `created_at`, and `total_devices` is the size of
that set. -/
theorem c1_amended_participants_characterisation (devices : List Device)
    (exp : Experiment) (exps : List Experiment) :
    (∀ d, d ∈ participants exp devices ↔
        d ∈ devices ∧ d.created_at ≤ exp.created_at)
      ∧ (statisticsFor devices exp).total_devices
          = (participants exp devices).length
      ∧ getStatistics exps devices = exps.map (statisticsFor devices) := by
  refine ⟨?_, rfl, rfl⟩
  intro d
  simp [participants, List.mem_filter, ge_iff_le]

/-- Claim C2: `Sqlite::finish_experiment` performs a single unconditional
`UPDATE` and returns `Ok(id)`; finishing an already-finished experiment
succeeds and overwrites `finished_at`, and finishing a nonexistent id also
succeeds — the declared `NotFound` / `Finished` errors are never produced. -/
theorem c2_finish_experiment_never_fails :
    finishExperiment [⟨"e1", "checkout", 0, some 5⟩] "e1" 9
        = ([⟨"e1", "checkout", 0, some 9⟩], .ok "e1")
      ∧ finishExperiment [] "missing" 9 = ([], .ok "missing") :=
  ⟨by with_unfolding_all rfl, by with_unfolding_all rfl⟩

/-- Claim C3, counterexample: the claim says a known device participates in
exactly the unfinished experiments created at or before the device's
`created_at`.  For the unfinished experiment created at time 0 and a device
created at time 1 the claim demands participation, yet the source filter
(`exp.created_at >= device.created_at`) excludes it and the result is
empty. -/
theorem c3_eligibility_direction_counterexample :
    ((⟨"e1", "checkout", ⟨[⟨100, "A"⟩]⟩, 0, none⟩ : Experiment).created_at ≤
        (⟨[97], 1⟩ : Device).created_at
      ∧ (⟨"e1", "checkout", ⟨[⟨100, "A"⟩]⟩, 0, none⟩ : Experiment).finished_at
          = none)
      ∧ deviceParticipatingExperiments ⟨[97], 1⟩
          [⟨"e1", "checkout", ⟨[⟨100, "A"⟩]⟩, 0, none⟩] = [] :=
  ⟨⟨by norm_num, rfl⟩, by with_unfolding_all decide⟩

/-- Claim C3, amended: for a known device,
`get_all_device_participating_experiments` returns one `DeviceExperiment`
(computed by `assign_variant` on the device id rendering) for exactly the
experiments created at or AFTER the device's `created_at` whose
`finished_at` is `None`. -/
theorem c3_amended_participating_characterisation (device : Device)
    (exps : List Experiment) (de : DeviceExperiment) :
    de ∈ deviceParticipatingExperiments device exps ↔
      ∃ exp ∈ exps, device.created_at ≤ exp.created_at
        ∧ exp.finished_at = none
        ∧ de = ⟨exp.id, exp.name, exp.variants.assign_variant device.id⟩ := by
  simp only [deviceParticipatingExperiments, List.mem_map, List.mem_filter,
    Bool.and_eq_true, decide_eq_true_eq, ge_iff_le]
  constructor
  · rintro ⟨exp, ⟨hexp, hle, hfin⟩, rfl⟩
    exact ⟨exp, hexp, hle, hfin, rfl⟩
  · rintro ⟨exp, hexp, hle, hfin, rfl⟩
    exact ⟨exp, ⟨hexp, hle, hfin⟩, rfl⟩

/-- Claim C5: `ExperimentVariants::new` fails with `DistributionSumError`
iff the list is empty or the distribution sum deviates from 100 by more
than `EPSILON = 0.2`; three variants of 33.3 validate (sum 99.9) and
`[60.0, 41.5]` fails (sum 101.5). -/
theorem c5_distribution_sum_validation :
    (∀ vs : List Variant,
        ExperimentVariants.new vs = .error .mk ↔
          vs = [] ∨ |(vs.map (·.distribution)).sum - 100| > EPSILON)
      ∧ (ExperimentVariants.new
          [⟨33.3, "version-1-url"⟩, ⟨33.3, "version-2-url"⟩,
            ⟨33.3, "version-3-url"⟩]).isOk = true
      ∧ ExperimentVariants.new [⟨60, "X"⟩, ⟨41.5, "Y"⟩] = .error .mk := by
  refine ⟨?_, by with_unfolding_all decide, by with_unfolding_all rfl⟩
  intro vs
  unfold ExperimentVariants.new validateDistribution
  by_cases he : vs = []
  · subst he; simp
  · have hne : ¬ (vs.map (·.distribution)).isEmpty := by
      simp [List.isEmpty_iff, he]
    by_cases hs : |(vs.map (·.distribution)).sum - 100| > EPSILON <;>
      simp [hne, hs, he]

/-- Claim C7: with zero eligible devices the percentage computation of
`get_statistics` divides `assigned_total_devices` by the zero
`total_devices` with no explicit guard: the `f64` division is performed
anyway and its result is not a finite number (modelled `none`), so the
claimed explicit handling is absent.  Concretely, an experiment created at
time 0 with one variant and a single device created at time 1 yields
`total_devices = 0` and an undefined `percentage_devices`. -/
theorem c7_zero_participants_percentage_undefined :
    getStatistics [⟨"e1", "checkout", ⟨[⟨100, "A"⟩]⟩, 0, none⟩] [⟨[97], 1⟩]
      = [⟨"e1", "checkout", 0, [⟨"A", 0, none⟩]⟩] := by
  with_unfolding_all decide

/-- Claim C9: `assign_variant` is deterministic — two invocations with the
same identity bytes and the same variant sequence return the same result. -/
theorem c9_assignment_deterministic (ev₁ ev₂ : ExperimentVariants)
    (i₁ i₂ : List ℕ) (hev : ev₁ = ev₂) (hi : i₁ = i₂) :
    ev₁.assign_variant i₁ = ev₂.assign_variant i₂ := by
  subst hev
  subst hi
  rfl

/-- Witness for C9 at a concrete variant list and identity. -/
theorem c9_assignment_deterministic_witness :
    (ExperimentVariants.mk [⟨100, "A"⟩]).assign_variant [97]
      = (ExperimentVariants.mk [⟨100, "A"⟩]).assign_variant [97] :=
  c9_assignment_deterministic _ _ _ _ rfl rfl

/-- Claim C4, counterexample: the claim says the normalized score
`(h / u64::MAX) * 100.0` lies in `[0, 100)`.  At the hash value
`h = u64::MAX` the score is exactly 100 (in the exact-rational model of the
`f64` arithmetic; Rust `f64` also yields exactly `100.0` there), so the
half-open upper bound fails. -/
theorem c4_score_range_counterexample :
    normalizedScore u64MAX = 100 ∧ ¬ normalizedScore u64MAX < 100 := by
  have h : normalizedScore u64MAX = 100 := by
    unfold normalizedScore
    rw [div_self (by norm_num [u64MAX])]
    norm_num
  exact ⟨h, by rw [h]; exact lt_irrefl 100⟩

/-- Claim C4, amended: `assign_variant` hashes the identity with SHA-256,
reads the first 8 digest bytes as a big-endian `u64`, normalizes to a score
in `[0, 100]` (the score reaches 100 exactly at `h = u64::MAX`), walks the
variants in insertion order accumulating distributions and returns the data
of the first variant with score strictly below the cumulative sum — a score
equal to a boundary falls into the next variant — falling back to the last
variant's data when no variant satisfies the condition. -/
theorem c4_amended_assignment_algorithm (ev : ExperimentVariants)
    (input : List ℕ) :
    0 ≤ inputScore input ∧ inputScore input ≤ 100
      ∧ ev.assign_variant input
          = specAssignVariant ev.variants (inputScore input) :=
  ⟨normalizedScore_nonneg _,
   normalizedScore_le _ (fromBeBytes_le _ (sha256_bytes_lt input)),
   assign_variant_eq_spec ev input⟩

/-- Claim C6: for any identity and any `ExperimentVariants` accepted by
`new`, `assign_variant` returns the data of one of the configured variants —
the trailing `last().unwrap()` cannot panic because validation rejects the
empty sequence, and no data outside the configured set is ever returned. -/
theorem c6_assignment_coverage (vs : List Variant) (ev : ExperimentVariants)
    (input : List ℕ) (hok : ExperimentVariants.new vs = .ok ev) :
    ∃ v ∈ ev.variants, ev.assign_variant input = some v.data := by
  obtain ⟨hv, hne⟩ := new_ok_variants vs ev hok
  exact assign_variant_mem ev input (by rw [hv]; exact hne)

/-- Witness for C6 at a concrete variant list and identity. -/
theorem c6_assignment_coverage_witness :
    ExperimentVariants.new [⟨100, "A"⟩] = .ok ⟨[⟨100, "A"⟩]⟩
      ∧ ∃ v ∈ (ExperimentVariants.mk [⟨100, "A"⟩]).variants,
          (ExperimentVariants.mk [⟨100, "A"⟩]).assign_variant [97]
            = some v.data :=
  ⟨by with_unfolding_all rfl,
   c6_assignment_coverage [⟨100, "A"⟩] ⟨[⟨100, "A"⟩]⟩ [97]
     (by with_unfolding_all rfl)⟩

/-- Claim C8: for a device eligible under both queries, the live assignment
path and the statistics path feed the same `assign_variant` result for the
same device id bytes: the `DeviceExperiment` emitted by the live path
carries `exp.variants.assign_variant device.id`, and the very same value is
the one counted for that device in the statistics `variants_data` list. -/
theorem c8_live_and_stats_assignment_agree (device : Device)
    (devices : List Device) (exps : List Experiment) (exp : Experiment)
    (hdev : device ∈ devices) (hexp : exp ∈ exps)
    (helig : device.created_at ≤ exp.created_at)
    (hfin : exp.finished_at = none) :
    (⟨exp.id, exp.name, exp.variants.assign_variant device.id⟩ :
        DeviceExperiment) ∈ deviceParticipatingExperiments device exps
      ∧ exp.variants.assign_variant device.id
          ∈ assignedVariantsData exp (participants exp devices) := by
  constructor
  · unfold deviceParticipatingExperiments
    exact List.mem_map.mpr ⟨exp,
      List.mem_filter.mpr ⟨hexp, by simp [helig, hfin, ge_iff_le]⟩, rfl⟩
  · unfold assignedVariantsData participants
    exact List.mem_map.mpr ⟨device,
      List.mem_filter.mpr ⟨hdev, by simp [helig, ge_iff_le]⟩, rfl⟩

/-- Witness for C8 at a concrete device and experiment. -/
theorem c8_live_and_stats_assignment_agree_witness :
    ((⟨[97], 0⟩ : Device) ∈ [(⟨[97], 0⟩ : Device)])
      ∧ ((⟨"e1", "checkout", ⟨[⟨100, "A"⟩]⟩, 0, none⟩ : Experiment)
          ∈ [(⟨"e1", "checkout", ⟨[⟨100, "A"⟩]⟩, 0, none⟩ : Experiment)])
      ∧ (⟨[97], 0⟩ : Device).created_at
          ≤ (⟨"e1", "checkout", ⟨[⟨100, "A"⟩]⟩, 0, none⟩ :
              Experiment).created_at
      ∧ (⟨"e1", "checkout", ⟨[⟨100, "A"⟩]⟩, 0, none⟩ :
          Experiment).finished_at = none
      ∧ ((⟨"e1", "checkout",
            (⟨"e1", "checkout", ⟨[⟨100, "A"⟩]⟩, 0, none⟩ :
              Experiment).variants.assign_variant [97]⟩ : DeviceExperiment)
            ∈ deviceParticipatingExperiments ⟨[97], 0⟩
              [⟨"e1", "checkout", ⟨[⟨100, "A"⟩]⟩, 0, none⟩]
        ∧ (⟨"e1", "checkout", ⟨[⟨100, "A"⟩]⟩, 0, none⟩ :
              Experiment).variants.assign_variant [97]
            ∈ assignedVariantsData
              ⟨"e1", "checkout", ⟨[⟨100, "A"⟩]⟩, 0, none⟩
              (participants ⟨"e1", "checkout", ⟨[⟨100, "A"⟩]⟩, 0, none⟩
                [⟨[97], 0⟩])) :=
  ⟨List.mem_cons_self _ _, List.mem_cons_self _ _, by norm_num, rfl,
   c8_live_and_stats_assignment_agree ⟨[97], 0⟩ _ _ _
     (List.mem_cons_self _ _) (List.mem_cons_self _ _) (by norm_num) rfl⟩

/-- Sum of a pointwise sum of two maps splits. -/
theorem sum_map_add (l : List Variant) (f g : Variant → ℕ) :
    (l.map fun x => f x + g x).sum = (l.map f).sum + (l.map g).sum := by
  induction l with
  | nil => simp
  | cons x l ih => simp [ih]; omega

/-- Over a duplicate-free list containing `d`, the indicator of `d` sums
to one. -/
theorem sum_ite_unique (ds : List String) (d : String) (hnd : ds.Nodup)
    (hd : d ∈ ds) :
    (ds.map fun s => if d = s then (1 : ℕ) else 0).sum = 1 := by
  induction ds with
  | nil => cases hd
  | cons s ds ih =>
    rcases List.mem_cons.mp hd with h | h
    · subst h
      have hnot : d ∉ ds := (List.nodup_cons.mp hnd).1
      have hz : (ds.map fun s => if d = s then (1 : ℕ) else 0).sum = 0 := by
        apply List.sum_eq_zero
        intro x hx
        simp only [List.mem_map] at hx
        obtain ⟨t, ht, rfl⟩ := hx
        have hne : d ≠ t := fun he => hnot (he ▸ ht)
        simp [hne]
      simp [hz]
    · have hnd' := (List.nodup_cons.mp hnd).2
      have hne : d ≠ s := fun he => (List.nodup_cons.mp hnd).1 (he ▸ h)
      simp [hne, ih hnd' h]

/-- When every element of `L` is the data of exactly one variant (pairwise
distinct data), the per-variant match counts partition `L`. -/
theorem count_partition (vs : List Variant)
    (hnd : (vs.map (·.data)).Nodup) :
    ∀ L : List (Option String),
      (∀ x ∈ L, ∃ v ∈ vs, x = some v.data) →
      (vs.map fun v =>
          (L.filter fun x => decide (x = some v.data)).length).sum = L.length
  | [], _ => by simp
  | x :: L, hmem => by
    obtain ⟨v₀, hv₀, hx⟩ := hmem x (List.mem_cons_self _ _)
    have ihL := count_partition vs hnd L
      (fun y hy => hmem y (List.mem_cons_of_mem _ hy))
    have hfun : (fun v : Variant =>
          ((x :: L).filter fun y => decide (y = some v.data)).length)
        = fun v : Variant =>
          ((if x = some v.data then 1 else 0)
            + (L.filter fun y => decide (y = some v.data)).length) := by
      funext v
      by_cases hxv : x = some v.data
      · simp [List.filter_cons, hxv]
        omega
      · simp [List.filter_cons, hxv]
    rw [hfun, sum_map_add]
    have hone :
        (vs.map fun v => if x = some v.data then (1 : ℕ) else 0).sum = 1 := by
      subst hx
      have hrw : (fun v : Variant =>
            if some v₀.data = some v.data then (1 : ℕ) else 0)
          = fun v : Variant => if v₀.data = v.data then (1 : ℕ) else 0 := by
        funext v
        simp
      rw [hrw, show (vs.map fun v => if v₀.data = v.data then (1 : ℕ) else 0)
            = ((vs.map (·.data)).map fun s =>
                if v₀.data = s then (1 : ℕ) else 0) from by
            rw [List.map_map]
            rfl]
      exact sum_ite_unique _ _ hnd (List.mem_map_of_mem _ hv₀)
    rw [hone, ihL]
    simp [List.length_cons]
    omega

/-- Claim C10: when an experiment's variants carry pairwise-distinct data,
the per-variant assigned counts of its statistics sum to `total_devices`,
and the output carries one entry per configured variant in order (with its
data preserved), even for zero counts. -/
theorem c10_variant_counts_partition (devices : List Device)
    (exps : List Experiment) (exp : Experiment) (hexp : exp ∈ exps)
    (hne : exp.variants.variants ≠ [])
    (hnd : (exp.variants.variants.map (·.data)).Nodup) :
    statisticsFor devices exp ∈ getStatistics exps devices
      ∧ ((statisticsFor devices exp).variants.map (·.total_devices)).sum
          = (statisticsFor devices exp).total_devices
      ∧ (statisticsFor devices exp).variants.map (·.data)
          = exp.variants.variants.map (·.data) := by
  have hmem : ∀ x ∈ assignedVariantsData exp (participants exp devices),
      ∃ v ∈ exp.variants.variants, x = some v.data := by
    intro x hx
    simp only [assignedVariantsData, List.mem_map] at hx
    obtain ⟨p, _, rfl⟩ := hx
    obtain ⟨v, hv, he⟩ := assign_variant_mem exp.variants p.id hne
    exact ⟨v, hv, he⟩
  have hkey := count_partition exp.variants.variants hnd
    (assignedVariantsData exp (participants exp devices)) hmem
  refine ⟨List.mem_map_of_mem _ hexp, ?_, ?_⟩
  · have hproj : (statisticsFor devices exp).variants.map (·.total_devices)
        = exp.variants.variants.map fun variant =>
            ((assignedVariantsData exp (participants exp devices)).filter
              fun v => decide (v = some variant.data)).length := by
      simp only [statisticsFor, List.map_map]
      rfl
    have hlen : (assignedVariantsData exp (participants exp devices)).length
        = (participants exp devices).length := by
      simp [assignedVariantsData]
    have htot : (statisticsFor devices exp).total_devices
        = (participants exp devices).length := rfl
    rw [hproj, htot, ← hlen]
    exact hkey
  · simp only [statisticsFor, List.map_map]
    rfl

/-- Witness for C10 at a concrete experiment and device population. -/
theorem c10_variant_counts_partition_witness :
    ((⟨"e1", "checkout", ⟨[⟨100, "A"⟩]⟩, 0, none⟩ : Experiment)
        ∈ [(⟨"e1", "checkout", ⟨[⟨100, "A"⟩]⟩, 0, none⟩ : Experiment)])
      ∧ (⟨"e1", "checkout", ⟨[⟨100, "A"⟩]⟩, 0, none⟩ :
          Experiment).variants.variants ≠ []
      ∧ ((⟨"e1", "checkout", ⟨[⟨100, "A"⟩]⟩, 0, none⟩ :
          Experiment).variants.variants.map (·.data)).Nodup
      ∧ (statisticsFor [⟨[97], 0⟩] ⟨"e1", "checkout", ⟨[⟨100, "A"⟩]⟩, 0, none⟩
            ∈ getStatistics [⟨"e1", "checkout", ⟨[⟨100, "A"⟩]⟩, 0, none⟩]
              [⟨[97], 0⟩]
        ∧ ((statisticsFor [⟨[97], 0⟩]
              ⟨"e1", "checkout", ⟨[⟨100, "A"⟩]⟩, 0, none⟩).variants.map
                (·.total_devices)).sum
            = (statisticsFor [⟨[97], 0⟩]
                ⟨"e1", "checkout", ⟨[⟨100, "A"⟩]⟩, 0, none⟩).total_devices
        ∧ (statisticsFor [⟨[97], 0⟩]
              ⟨"e1", "checkout", ⟨[⟨100, "A"⟩]⟩, 0, none⟩).variants.map
                (·.data)
            = (⟨"e1", "checkout", ⟨[⟨100, "A"⟩]⟩, 0, none⟩ :
                Experiment).variants.variants.map (·.data)) :=
  ⟨List.mem_cons_self _ _, by simp, by simp,
   c10_variant_counts_partition [⟨[97], 0⟩] _ _
     (List.mem_cons_self _ _) (by simp) (by simp)⟩

end AbExp
